import Mathlib

/-!
Verification of the pynotex retrieval-and-generation core against its
natural-language specification.

Strings are modelled as `List Char` (Python `str`), floats as `ℚ`, and the
fallible external collaborators (LLM provider, Gemini client, DeepInsight
subprocess, file system) as explicit oracles.  Definitions are translated
from `src/app/vector.py`, `src/app/agent.py` and `src/app/server.py`.
-/

/-- ASCII whitespace, the character class Python's `str.split()` and `\s`
use on the ASCII range. -/
def pyIsSpace (c : Char) : Bool :=
  c = ' ' || c = '\t' || c = '\n' || c = '\r' || c = '\x0B' || c = '\x0C'

/-- Python slice-bound normalisation for `xs[i:j]`: a negative bound counts
from the end (clamped at 0), a nonnegative bound is clamped at `len`. -/
def pyBound (len : ℕ) (v : ℤ) : ℕ :=
  if v < 0 then (len + v).toNat else min v.toNat len

/-- Python list/string slicing `xs[i:j]` (step 1). -/
def pySlice (xs : List α) (i j : ℤ) : List α :=
  let lo := pyBound xs.length i
  let hi := pyBound xs.length j
  (xs.drop lo).take (hi - lo)

/-- Accumulator worker for `pySplit` (structural, so it evaluates in the
kernel): `acc` holds the reversed current token. -/
def pySplitAux : List Char → List Char → List (List Char)
  | [], acc => if acc.isEmpty then [] else [acc.reverse]
  | c :: rest, acc =>
    if pyIsSpace c then
      if acc.isEmpty then pySplitAux rest [] else acc.reverse :: pySplitAux rest []
    else pySplitAux rest (c :: acc)

/-- Python `str.split()`: split on runs of whitespace, dropping empty
tokens. -/
def pySplit (s : List Char) : List (List Char) := pySplitAux s []

theorem pySplitAux_ne_nil (l : List Char) : ∀ acc : List Char, acc ≠ [] →
    pySplitAux l acc =
      (acc.reverse ++ l.takeWhile (fun d => !pyIsSpace d))
        :: pySplit (l.dropWhile (fun d => !pyIsSpace d)) := by
  induction l with
  | nil =>
    intro acc h
    simp [pySplitAux, pySplit, List.isEmpty_iff, h]
  | cons c rest ih =>
    intro acc h
    by_cases hc : pyIsSpace c
    · simp only [pySplitAux, hc, if_true, List.isEmpty_iff, h, if_false,
        List.takeWhile_cons, Bool.not_true, List.dropWhile_cons]
      simp [pySplit, pySplitAux, hc]
    · have h' : c :: acc ≠ [] := by simp
      simp only [pySplitAux, hc, if_false, ih (c :: acc) h',
        List.takeWhile_cons, Bool.not_false, if_true, List.dropWhile_cons,
        List.reverse_cons, List.append_assoc, List.cons_append,
        List.nil_append]
      simp [hc]

theorem pySplit_nil : pySplit [] = [] := rfl

theorem pySplit_cons_space {c : Char} (rest : List Char) (hc : pyIsSpace c) :
    pySplit (c :: rest) = pySplit rest := by
  simp [pySplit, pySplitAux, hc]

theorem pySplit_cons_word {c : Char} (rest : List Char) (hc : ¬ pyIsSpace c) :
    pySplit (c :: rest) =
      (c :: rest.takeWhile (fun d => !pyIsSpace d))
        :: pySplit (rest.dropWhile (fun d => !pyIsSpace d)) := by
  have : pySplit (c :: rest) = pySplitAux rest [c] := by
    simp [pySplit, pySplitAux, hc]
  rw [this, pySplitAux_ne_nil rest [c] (by simp)]
  simp

/-- Python `' '.join(ws)`. -/
def joinSp : List (List Char) → List Char
  | [] => []
  | [w] => w
  | w :: rest => w ++ ' ' :: joinSp rest

/-- A CJK Unified Ideograph, as tested by `vector.py`
(`'一' <= c <= '鿿'`). -/
def isCJK (c : Char) : Bool := '一' ≤ c && c ≤ '鿿'

/-- The CJK-character ratio computed by `_split_text`
(`cjk_count / len(runes) if runes else 0`). -/
def cjkRatio (text : List Char) : ℚ :=
  if text.length = 0 then 0
  else ((text.filter isCJK).length : ℚ) / (text.length : ℚ)

/-- The `while i < len(xs)` loop of `_split_text`, fuel-indexed because the
Python loop need not terminate (`i += step` with `step = chunk_size -
chunk_overlap` may not advance).  Each appended chunk is the slice
`xs[i:end]` with `end = min(i + chunk_size, len(xs))`, post-processed by
`f` (identity for the CJK branch, `' '.join` for the word branch); the
loop breaks once `end >= len(xs)`.  `none` means the fuel ran out, i.e.
the loop was still running. -/
def splitLoopF (f : List α → β) (xs : List α) (cs step : ℤ) : ℤ → ℕ → Option (List β)
  | _, 0 => none
  | i, fuel + 1 =>
    if i < (xs.length : ℤ) then
      let e := min (i + cs) (xs.length : ℤ)
      let chunk := f (pySlice xs i e)
      if (xs.length : ℤ) ≤ e then some [chunk]
      else (splitLoopF f xs cs step (i + step) fuel).map (chunk :: ·)
    else some []

/-- The two configuration fields `_split_text` reads. -/
structure SplitConfig where
  chunk_size : ℤ
  chunk_overlap : ℤ

/-- `VectorStore._split_text`: coerce degenerate configuration
(`chunk_size <= 0` to 1000, `chunk_overlap < 0` to 200), pick the CJK
branch when the CJK ratio exceeds 0.3 (character windows) and the word
branch otherwise (whitespace tokens re-joined with single spaces), and run
the sliding-window loop with step `chunk_size - chunk_overlap`.  The fuel
bounds the number of loop iterations; the source has no such bound. -/
def split_text (cfg : SplitConfig) (text : List Char) (fuel : ℕ) :
    Option (List (List Char)) :=
  let cs := if cfg.chunk_size ≤ 0 then 1000 else cfg.chunk_size
  let ov := if cfg.chunk_overlap < 0 then 200 else cfg.chunk_overlap
  if 3/10 < cjkRatio text then
    splitLoopF (fun cl => cl) text cs (cs - ov) 0 fuel
  else
    splitLoopF joinSp (pySplit text) cs (cs - ov) 0 fuel

/-- A stored chunk (`Document` of `types.py`): the chunk text plus the
`source`/`chunk` metadata written by `ingest_text`. -/
structure Document where
  page_content : List Char
  source : List Char
  chunk : ℕ
deriving DecidableEq

/-- `VectorStore.ingest_text`: split the content, append one `Document`
per chunk (metadata `source`/`chunk`), and return the chunk count. -/
def ingest_text (cfg : SplitConfig) (sourceName content : List Char) (fuel : ℕ)
    (docs : List Document) : Option (List Document × ℕ) :=
  (split_text cfg content fuel).map fun chunks =>
    (docs ++ chunks.enum.map (fun p => ⟨p.2, sourceName, p.1⟩), chunks.length)

/-- C1 failing input: `chunk_size = 1, chunk_overlap = 1` (so the window
step is `0`) on the two-word text `"a b"`. -/
def c1Config : SplitConfig := ⟨1, 1⟩

theorem notDominant_of_no_cjk {text : List Char}
    (h : text.filter isCJK = []) : ¬ (3/10 : ℚ) < cjkRatio text := by
  rcases Nat.eq_zero_or_pos text.length with h0 | h0
  · simp [cjkRatio, h0]; norm_num
  · have : cjkRatio text = 0 := by
      simp [cjkRatio, Nat.pos_iff_ne_zero.mp h0, h]
    rw [this]; norm_num

theorem c1_loop_stuck (f : List (List Char) → List Char) :
    ∀ fuel, splitLoopF f [['a'], ['b']] 1 0 0 fuel = none := by
  intro fuel
  induction fuel with
  | zero => rfl
  | succ n ih =>
    simp only [splitLoopF]
    norm_num
    simpa using ih

/-- C1: with `chunk_size > 0` and `overlap >= chunk_size` the window step
of `_split_text` is `chunk_size - chunk_overlap <= 0` and is neither
rejected nor clamped: on the concrete input `chunk_size = 1`,
`overlap = 1`, text `"a b"` the loop never advances, so the split does not
terminate for any iteration bound (the claimed invariant
`step = max(1, chunk_size - overlap)` is absent from the code). -/
theorem c1_split_does_not_terminate :
    ∀ fuel, split_text c1Config ('a' :: ' ' :: ['b']) fuel = none := by
  intro fuel
  have hr : ¬ (3/10 : ℚ) < cjkRatio ('a' :: ' ' :: ['b']) :=
    notDominant_of_no_cjk (by decide)
  have hw : pySplit ('a' :: ' ' :: ['b']) = [['a'], ['b']] := by decide
  simp only [split_text, c1Config, hr, if_false, hw]
  norm_num
  exact c1_loop_stuck _ fuel

/-- Concatenate chunks after removing the declared overlap (`ov` leading
units) from every chunk but the first. -/
def dropOverlapList (ov : ℕ) : List (List α) → List α
  | [] => []
  | c :: rest => c ++ (rest.map (List.drop ov)).flatten

theorem pySlice_window (xs : List α) (i : ℕ) (cs : ℤ) (hcs : 0 < cs)
    (hi : i < xs.length) :
    pySlice xs (i : ℤ) (min ((i : ℤ) + cs) (xs.length : ℤ)) =
      (xs.drop i).take cs.toNat := by
  have hlo : pyBound xs.length (i : ℤ) = i := by
    simp only [pyBound]
    rw [if_neg (by omega)]
    simp
    omega
  have he0 : (0 : ℤ) ≤ min ((i : ℤ) + cs) (xs.length : ℤ) := by omega
  have hhi : pyBound xs.length (min ((i : ℤ) + cs) (xs.length : ℤ)) =
      min (i + cs.toNat) xs.length := by
    simp only [pyBound]
    rw [if_neg (by omega)]
    omega
  simp only [pySlice, hlo, hhi]
  rcases le_or_lt (i + cs.toNat) xs.length with hle | hgt
  · rw [min_eq_left hle]
    congr 1
    omega
  · rw [min_eq_right (le_of_lt hgt)]
    have h1 : (xs.drop i).length ≤ xs.length - i := by
      rw [List.length_drop]
    rw [List.take_of_length_le (by rw [List.length_drop]),
        List.take_of_length_le (by rw [List.length_drop]; omega)]

theorem splitLoop_windows {α β : Type} (f : List α → β) (xs : List α)
    (csN ovN : ℕ) (hcs : 0 < csN) (hlt : ovN < csN) :
    ∀ (fuel : ℕ) (i : ℕ), xs.length - i < fuel →
    ∃ ws : List (List α),
      splitLoopF f xs (csN : ℤ) ((csN : ℤ) - (ovN : ℤ)) (i : ℤ) fuel =
        some (ws.map f) ∧
      dropOverlapList ovN ws = xs.drop i ∧
      (ovN < xs.length - i →
        (ws.map (List.drop ovN)).flatten = xs.drop (i + ovN)) ∧
      (∀ w ∈ ws, ∀ a ∈ w, a ∈ xs) := by
  intro fuel
  induction fuel with
  | zero => intro i h; omega
  | succ n ih =>
    intro i hfuel
    by_cases hi : i < xs.length
    · have hslice := pySlice_window xs i (csN : ℤ) (by exact_mod_cast hcs) hi
      have htoNat : ((csN : ℤ)).toNat = csN := by omega
      rw [htoNat] at hslice
      by_cases hend : xs.length ≤ i + csN
      · refine ⟨[(xs.drop i).take csN], ?_, ?_, ?_, ?_⟩
        · simp only [splitLoopF]
          rw [if_pos (by exact_mod_cast hi), if_pos (by omega), hslice]
          simp
        · have : (xs.drop i).take csN = xs.drop i :=
            List.take_of_length_le (by rw [List.length_drop]; omega)
          simp [dropOverlapList, this]
        · intro hov
          have ht : (xs.drop i).take csN = xs.drop i :=
            List.take_of_length_le (by rw [List.length_drop]; omega)
          simp only [List.map_cons, List.map_nil, ht, List.flatten_cons,
            List.flatten_nil, List.append_nil, List.drop_drop]
        · intro w hw a ha
          simp at hw
          subst hw
          exact List.mem_of_mem_drop (List.mem_of_mem_take ha)
      · set i' := i + (csN - ovN) with hi'
        have hstep : (i : ℤ) + ((csN : ℤ) - (ovN : ℤ)) = (i' : ℤ) := by
          simp only [hi']
          push_cast
          omega
        have hrec : xs.length - i' < n := by omega
        obtain ⟨ws', h1, h2, h3, h4⟩ := ih i' hrec
        have hi'ov : i' + ovN = i + csN := by omega
        have hov' : ovN < xs.length - i' := by omega
        have h3' : (ws'.map (List.drop ovN)).flatten = xs.drop (i + csN) := by
          rw [h3 hov', hi'ov]
        refine ⟨(xs.drop i).take csN :: ws', ?_, ?_, ?_, ?_⟩
        · simp only [splitLoopF]
          rw [if_pos (by exact_mod_cast hi), if_neg (by omega), hslice,
            hstep, h1]
          simp
        · simp only [dropOverlapList, List.map_cons, h3']
          have hd : xs.drop (i + csN) = (xs.drop i).drop csN := by
            rw [List.drop_drop]
          rw [hd, List.take_append_drop]
        · intro _
          simp only [List.map_cons, List.flatten_cons, h3']
          have e1 : ((xs.drop i).take csN).drop ovN =
              (xs.drop (i + ovN)).take (csN - ovN) := by
            rw [List.drop_take, List.drop_drop]
          have e2 : xs.drop (i + csN) = (xs.drop (i + ovN)).drop (csN - ovN) := by
            rw [List.drop_drop]
            congr 1
            omega
          rw [e1, e2, List.take_append_drop]
        · intro w hw a ha
          rcases List.mem_cons.mp hw with hw' | hw'
          · exact List.mem_of_mem_drop (List.mem_of_mem_take (hw' ▸ ha))
          · exact h4 w hw' a ha
    · refine ⟨[], ?_, ?_, ?_, ?_⟩
      · simp only [splitLoopF]
        rw [if_neg (by exact_mod_cast hi)]
        simp
      · simp [dropOverlapList, List.drop_eq_nil_of_le (by omega : xs.length ≤ i)]
      · intro hov; omega
      · intro w hw; simp at hw

theorem takeWhile_append_of_all {p : Char → Bool} (u l : List Char)
    (h : ∀ c ∈ u, p c) : (u ++ l).takeWhile p = u ++ l.takeWhile p := by
  induction u with
  | nil => simp
  | cons c t ih =>
    simp only [List.cons_append, List.takeWhile_cons, h c (by simp), ih
      (fun d hd => h d (by simp [hd])), if_true]

theorem dropWhile_append_of_all {p : Char → Bool} (u l : List Char)
    (h : ∀ c ∈ u, p c) : (u ++ l).dropWhile p = l.dropWhile p := by
  induction u with
  | nil => simp
  | cons c t ih =>
    simp only [List.cons_append, List.dropWhile_cons, h c (by simp), ih
      (fun d hd => h d (by simp [hd])), if_true]

/-- Tokens produced by `pySplit` are nonempty and whitespace free. -/
theorem pySplit_tokens (l : List Char) : ∀ acc : List Char,
    (∀ c ∈ acc, ¬ pyIsSpace c) →
    ∀ w ∈ pySplitAux l acc, w ≠ [] ∧ ∀ c ∈ w, ¬ pyIsSpace c := by
  induction l with
  | nil =>
    intro acc hacc w hw
    by_cases h : acc.isEmpty
    · simp [pySplitAux, h] at hw
    · simp [pySplitAux, h] at hw
      subst hw
      refine ⟨by simpa [List.isEmpty_iff] using h, ?_⟩
      intro c hc
      exact hacc c (List.mem_reverse.mp hc)
  | cons c rest ih =>
    intro acc hacc w hw
    by_cases hc : pyIsSpace c
    · by_cases h : acc.isEmpty
      · simp [pySplitAux, hc, h] at hw
        exact ih [] (by simp) w hw
      · simp [pySplitAux, hc, h] at hw
        rcases hw with hw | hw
        · subst hw
          refine ⟨by simpa [List.isEmpty_iff] using h, ?_⟩
          intro d hd
          exact hacc d (List.mem_reverse.mp hd)
        · exact ih [] (by simp) w hw
    · simp only [pySplitAux, hc, Bool.false_eq_true, if_false] at hw
      refine ih (c :: acc) ?_ w hw
      intro d hd
      rcases List.mem_cons.mp hd with h | h
      · subst h; exact hc
      · exact hacc d h

/-- `pySplit` produces at most one token per input character. -/
theorem pySplitAux_length_le (l : List Char) : ∀ acc : List Char,
    (pySplitAux l acc).length ≤ l.length + (if acc.isEmpty then 0 else 1) := by
  induction l with
  | nil =>
    intro acc
    by_cases h : acc.isEmpty <;> simp [pySplitAux, h]
  | cons c rest ih =>
    intro acc
    have hnil := ih []
    simp only [List.isEmpty_nil, if_true] at hnil
    by_cases hc : pyIsSpace c
    · by_cases h : acc.isEmpty
      · simp only [pySplitAux, hc, if_true, h, List.length_cons]
        omega
      · simp [pySplitAux, hc, h]
        omega
    · have hcons := ih (c :: acc)
      simp only [List.isEmpty_cons, Bool.false_eq_true, if_false] at hcons
      simp only [pySplitAux, hc, Bool.false_eq_true, if_false, List.length_cons]
      by_cases h : acc.isEmpty <;> simp only [h, if_true, if_false] <;> omega

theorem pySplit_length_le (s : List Char) : (pySplit s).length ≤ s.length := by
  have := pySplitAux_length_le s []
  simpa [pySplit] using this

/-- Splitting the single-space join of nonempty whitespace-free tokens
recovers the tokens. -/
theorem pySplit_joinSp : ∀ L : List (List Char),
    (∀ w ∈ L, w ≠ [] ∧ ∀ c ∈ w, ¬ pyIsSpace c) → pySplit (joinSp L) = L := by
  intro L
  induction L with
  | nil => intro _; rfl
  | cons w rest ih =>
    intro h
    obtain ⟨hw, hwc⟩ := h w (by simp)
    obtain ⟨c, u, rfl⟩ : ∃ c u, w = c :: u := by
      cases w with
      | nil => exact absurd rfl hw
      | cons c u => exact ⟨c, u, rfl⟩
    have hcns : ¬ pyIsSpace c := hwc c (by simp)
    have hu : ∀ d ∈ u, (fun d => !pyIsSpace d) d = true := by
      intro d hd
      simp [hwc d (by simp [hd])]
    cases rest with
    | nil =>
      simp only [joinSp]
      rw [pySplit_cons_word u hcns,
        List.takeWhile_eq_self_iff.mpr hu,
        List.dropWhile_eq_nil_iff.mpr (fun d hd => hu d hd), pySplit_nil]
    | cons w2 rest2 =>
      have hjoin : joinSp ((c :: u) :: w2 :: rest2) =
          c :: (u ++ ' ' :: joinSp (w2 :: rest2)) := by
        simp [joinSp]
      rw [hjoin, pySplit_cons_word _ hcns,
        takeWhile_append_of_all u _ (fun d hd => hu d hd),
        dropWhile_append_of_all u _ (fun d hd => hu d hd)]
      simp only [List.takeWhile_cons]
      norm_num [pyIsSpace]
      rw [pySplit_cons_space _ (by norm_num [pyIsSpace])]
      exact ih (fun v hv => h v (by simp [hv]))

/-- Reconstruction of a word-mode chunk list: parse each chunk back into
tokens, remove the declared overlap (`ov` leading tokens) from every chunk
but the first, and re-join the tokens with single spaces. -/
def reconstructWords (ov : ℕ) : List (List Char) → List Char
  | [] => []
  | c :: rest =>
      joinSp (pySplit c ++ (rest.map (fun ch => (pySplit ch).drop ov)).flatten)

/-- C4 (counterexample): word-mode splitting tokenises on whitespace and
re-joins with single spaces, so the text `"a  b"` (two spaces) splits —
with `chunk_size = 5`, `overlap = 0` — into the single chunk `"a b"`,
which does not reconstruct the original text: one character is lost. -/
theorem c4_counterexample :
    split_text ⟨5, 0⟩ ('a' :: ' ' :: ' ' :: ['b']) 5 = some [['a', ' ', 'b']] ∧
    dropOverlapList 0 [['a', ' ', 'b']] ≠ 'a' :: ' ' :: ' ' :: ['b'] ∧
    reconstructWords 0 [['a', ' ', 'b']] ≠ 'a' :: ' ' :: ' ' :: ['b'] := by
  refine ⟨?_, by decide, by decide⟩
  have hr : ¬ (3/10 : ℚ) < cjkRatio ('a' :: ' ' :: ' ' :: ['b']) :=
    notDominant_of_no_cjk (by decide)
  simp only [split_text, if_neg hr]
  decide

/-- C4 (amended): for `chunk_size > 0` and `0 ≤ overlap < chunk_size` the
split terminates and its chunks, concatenated with the declared overlap
removed, reconstruct the text exactly in CJK mode, and reconstruct the
whitespace-normalised text (its tokens re-joined with single spaces) in
word mode. -/
theorem c4_amended (cfg : SplitConfig) (text : List Char) (fuel : ℕ)
    (hcs : 0 < cfg.chunk_size) (hov : 0 ≤ cfg.chunk_overlap)
    (hlt : cfg.chunk_overlap < cfg.chunk_size) (hfuel : text.length < fuel) :
    ∃ chunks, split_text cfg text fuel = some chunks ∧
      ((3/10 : ℚ) < cjkRatio text →
        dropOverlapList cfg.chunk_overlap.toNat chunks = text) ∧
      (¬ (3/10 : ℚ) < cjkRatio text →
        reconstructWords cfg.chunk_overlap.toNat chunks =
          joinSp (pySplit text)) := by
  set csN := cfg.chunk_size.toNat with hcsN
  set ovN := cfg.chunk_overlap.toNat with hovN
  have hc1 : cfg.chunk_size = (csN : ℤ) := by omega
  have hc2 : cfg.chunk_overlap = (ovN : ℤ) := by omega
  have hcsN' : 0 < csN := by omega
  have hltN : ovN < csN := by omega
  have hzero : ((0 : ℕ) : ℤ) = (0 : ℤ) := by norm_num
  have e1 : (if (csN : ℤ) ≤ 0 then (1000 : ℤ) else (csN : ℤ)) = (csN : ℤ) :=
    if_neg (by omega)
  have e2 : (if (ovN : ℤ) < 0 then (200 : ℤ) else (ovN : ℤ)) = (ovN : ℤ) :=
    if_neg (by omega)
  simp only [split_text, hc1, hc2, e1, e2]
  by_cases hdom : (3/10 : ℚ) < cjkRatio text
  · rw [if_pos hdom]
    obtain ⟨ws, h1, h2, -, -⟩ :=
      splitLoop_windows (fun cl => cl) text csN ovN hcsN' hltN fuel 0
        (by omega)
    rw [hzero] at h1
    rw [List.map_id'] at h1
    refine ⟨ws, h1, fun _ => ?_, fun h => absurd hdom h⟩
    simpa using h2
  · rw [if_neg hdom]
    have hlen : (pySplit text).length - 0 < fuel := by
      have := pySplit_length_le text
      omega
    obtain ⟨ws, h1, h2, -, h4⟩ :=
      splitLoop_windows joinSp (pySplit text) csN ovN hcsN' hltN fuel 0 hlen
    rw [hzero] at h1
    simp only [List.drop_zero] at h2
    have htok : ∀ w ∈ pySplit text, w ≠ [] ∧ ∀ c ∈ w, ¬ pyIsSpace c :=
      pySplit_tokens text [] (by simp)
    have hgood : ∀ w ∈ ws, ∀ a ∈ w, a ≠ [] ∧ ∀ c ∈ a, ¬ pyIsSpace c := by
      intro w hw a ha
      exact htok a (h4 w hw a ha)
    refine ⟨ws.map joinSp, h1, fun h => absurd h hdom, fun _ => ?_⟩
    cases ws with
    | nil =>
      simp only [dropOverlapList] at h2
      simp [reconstructWords, ← h2, joinSp]
    | cons c rest =>
      simp only [List.map_cons, reconstructWords]
      have hc' : pySplit (joinSp c) = c :=
        pySplit_joinSp c (hgood c (by simp))
      have hrest : (rest.map joinSp).map (fun ch => (pySplit ch).drop ovN) =
          rest.map (fun w => w.drop ovN) := by
        rw [List.map_map]
        refine List.map_congr_left ?_
        intro w hw
        simp only [Function.comp]
        rw [pySplit_joinSp w (hgood w (by simp [hw]))]
      rw [hc', hrest]
      have : (c ++ (rest.map (fun w => w.drop ovN)).flatten) =
          dropOverlapList ovN (c :: rest) := by
        simp [dropOverlapList]
      rw [this, h2]

/-- C4 witness: concrete instance of `c4_amended` at
`chunk_size = 3, overlap = 1` on the text `"ab cd"`. -/
theorem c4_amended_witness :
    (0 : ℤ) < (SplitConfig.mk 3 1).chunk_size ∧
    (0 : ℤ) ≤ (SplitConfig.mk 3 1).chunk_overlap ∧
    (SplitConfig.mk 3 1).chunk_overlap < (SplitConfig.mk 3 1).chunk_size ∧
    ('a' :: 'b' :: ' ' :: 'c' :: ['d']).length < 10 ∧
    ∃ chunks,
      split_text ⟨3, 1⟩ ('a' :: 'b' :: ' ' :: 'c' :: ['d']) 10 = some chunks ∧
      ((3/10 : ℚ) < cjkRatio ('a' :: 'b' :: ' ' :: 'c' :: ['d']) →
        dropOverlapList (SplitConfig.mk 3 1).chunk_overlap.toNat chunks =
          'a' :: 'b' :: ' ' :: 'c' :: ['d']) ∧
      (¬ (3/10 : ℚ) < cjkRatio ('a' :: 'b' :: ' ' :: 'c' :: ['d']) →
        reconstructWords (SplitConfig.mk 3 1).chunk_overlap.toNat chunks =
          joinSp (pySplit ('a' :: 'b' :: ' ' :: 'c' :: ['d']))) :=
  ⟨by decide, by decide, by decide, by decide,
    c4_amended ⟨3, 1⟩ ('a' :: 'b' :: ' ' :: 'c' :: ['d']) 10
      (by decide) (by decide) (by decide) (by decide)⟩

theorem splitLoopF_step_eq {α β : Type} (f : List α → β) (xs : List α)
    (cs step i : ℤ) (n : ℕ) (h1 : i < (xs.length : ℤ))
    (h2 : ¬ (xs.length : ℤ) ≤ min (i + cs) (xs.length : ℤ)) :
    splitLoopF f xs cs step i (n + 1) =
      (splitLoopF f xs cs step (i + step) n).map
        (f (pySlice xs i (min (i + cs) (xs.length : ℤ))) :: ·) := by
  simp only [splitLoopF, if_pos h1, if_neg h2]

theorem splitLoopF_last_eq {α β : Type} (f : List α → β) (xs : List α)
    (cs step i : ℤ) (n : ℕ) (h1 : i < (xs.length : ℤ))
    (h2 : (xs.length : ℤ) ≤ min (i + cs) (xs.length : ℤ)) :
    splitLoopF f xs cs step i (n + 1) =
      some [f (pySlice xs i (min (i + cs) (xs.length : ℤ)))] := by
  simp only [splitLoopF, if_pos h1, if_pos h2]

/-- With the scenario-A configuration (`chunk_size = 1000`,
`overlap = 200`) a non-CJK text of exactly 2500 whitespace tokens is split
into exactly 3 word-window chunks `[0,1000)`, `[800,1800)`, `[1600,2500)`:
the loop breaks once a window reaches the end of the token list, so no
fourth window `[2400,2500)` is ever produced. -/
theorem split2500 (text : List Char) (fuel : ℕ)
    (hdom : ¬ (3/10 : ℚ) < cjkRatio text)
    (hw : (pySplit text).length = 2500) (hfuel : 2500 < fuel) :
    split_text ⟨1000, 200⟩ text fuel =
      some [joinSp ((pySplit text).take 1000),
        joinSp (((pySplit text).drop 800).take 1000),
        joinSp ((pySplit text).drop 1600)] := by
  obtain ⟨n, rfl⟩ : ∃ n, fuel = n + 3 := ⟨fuel - 3, by omega⟩
  have hlenZ : ((pySplit text).length : ℤ) = 2500 := by rw [hw]; norm_num
  simp only [split_text, if_neg hdom]
  norm_num
  rw [splitLoopF_step_eq _ _ _ _ _ _ (by omega) (by rw [hlenZ]; omega)]
  norm_num
  rw [splitLoopF_step_eq _ _ _ _ _ _ (by omega) (by rw [hlenZ]; omega)]
  norm_num
  rw [splitLoopF_last_eq _ _ _ _ _ _ (by omega) (by rw [hlenZ]; omega)]
  have s0 : pySlice (pySplit text) 0 (min (1000 : ℤ)
      ((pySplit text).length : ℤ)) = (pySplit text).take 1000 := by
    simp [pySlice, pyBound, hw]
  have s1 : pySlice (pySplit text) 800 (min (1800 : ℤ)
      ((pySplit text).length : ℤ)) = ((pySplit text).drop 800).take 1000 := by
    simp [pySlice, pyBound, hw]
  have s2 : pySlice (pySplit text) 1600 (min ((1600 : ℤ) + 1000)
      ((pySplit text).length : ℤ)) = (pySplit text).drop 1600 := by
    simp [pySlice, pyBound, hw]
  rw [s0, s1, s2]
  exact ⟨⟨rfl, rfl⟩, rfl⟩

/-- C5 (amended): splitting a non-CJK text of exactly 2500 whitespace
tokens with `chunk_size = 1000, overlap = 200` yields exactly 3 chunks,
the word-index windows `[0,1000)`, `[800,1800)` and `[1600,2500)`; the
loop stops once a window reaches the end of the token list, so the claimed
fourth window `[2400,2500)` is never produced (the spec's own chunk-count
formula `ceil((2500-200)/800) = 3` agrees). -/
theorem c5_three_chunks (text : List Char) (fuel : ℕ)
    (hdom : ¬ (3/10 : ℚ) < cjkRatio text)
    (hw : (pySplit text).length = 2500) (hfuel : 2500 < fuel) :
    split_text ⟨1000, 200⟩ text fuel =
      some [joinSp ((pySplit text).take 1000),
        joinSp (((pySplit text).drop 800).take 1000),
        joinSp ((pySplit text).drop 1600)] :=
  split2500 text fuel hdom hw hfuel

theorem pySplit_a_sp (l : List Char) :
    pySplit ('a' :: ' ' :: l) = ['a'] :: pySplit l := by
  rw [pySplit_cons_word _ (by decide)]
  have h1 : (' ' :: l).takeWhile (fun d => !pyIsSpace d) = [] := by
    simp [List.takeWhile_cons, pyIsSpace]
  have h2 : (' ' :: l).dropWhile (fun d => !pyIsSpace d) = ' ' :: l := by
    simp [List.dropWhile_cons, pyIsSpace]
  rw [h1, h2, pySplit_cons_space _ (by decide)]

theorem c5_rep_split (n : ℕ) :
    pySplit ((List.replicate n ('a' :: [' '])).flatten ++ ['a']) =
      List.replicate (n + 1) ['a'] := by
  induction n with
  | zero => decide
  | succ m ih =>
    have hshape : (List.replicate (m + 1) ('a' :: [' '])).flatten ++ ['a'] =
        'a' :: ' ' :: ((List.replicate m ('a' :: [' '])).flatten ++ ['a']) := by
      simp [List.replicate_succ, List.flatten_cons]
    rw [hshape, pySplit_a_sp, ih]
    simp [List.replicate_succ]

theorem c5_rep_no_cjk (n : ℕ) :
    ((List.replicate n ('a' :: [' '])).flatten ++ ['a']).filter isCJK = [] := by
  induction n with
  | zero => decide
  | succ m ih =>
    have hshape : (List.replicate (m + 1) ('a' :: [' '])).flatten ++ ['a'] =
        'a' :: ' ' :: ((List.replicate m ('a' :: [' '])).flatten ++ ['a']) := by
      simp [List.replicate_succ, List.flatten_cons]
    have ha : isCJK 'a' = false := by decide
    have hsp : isCJK ' ' = false := by decide
    rw [hshape]
    simp [List.filter_cons, ha, hsp, ih]

/-- A concrete English-like source of exactly 2500 words: `"a a ... a"`. -/
def c5Text : List Char := (List.replicate 2499 ('a' :: [' '])).flatten ++ ['a']

theorem c5Text_split : pySplit c5Text = List.replicate 2500 ['a'] := by
  have h := c5_rep_split 2499
  norm_num at h
  exact h

theorem c5Text_words : (pySplit c5Text).length = 2500 := by
  rw [c5Text_split, List.length_replicate]

theorem c5Text_not_dominant : ¬ (3/10 : ℚ) < cjkRatio c5Text :=
  notDominant_of_no_cjk (c5_rep_no_cjk 2499)

/-- C5 (counterexample): ingesting the concrete 2500-word source with
`chunk_size = 1000, overlap = 200` reports 3 chunks, not the 4 the claim
states. -/
theorem c5_counterexample :
    (ingest_text ⟨1000, 200⟩ ['s'] c5Text 2501 []).map Prod.snd = some 3 ∧
    (3 : ℕ) ≠ 4 := by
  refine ⟨?_, by decide⟩
  have h := split2500 c5Text 2501 c5Text_not_dominant c5Text_words
    (by norm_num)
  simp [ingest_text, h]

/-- C5 witness: `c5_three_chunks` instantiated at the concrete 2500-word
source. -/
theorem c5_three_chunks_witness :
    (¬ (3/10 : ℚ) < cjkRatio c5Text) ∧ (pySplit c5Text).length = 2500 ∧
    2500 < 2501 ∧
    split_text ⟨1000, 200⟩ c5Text 2501 =
      some [joinSp ((pySplit c5Text).take 1000),
        joinSp (((pySplit c5Text).drop 800).take 1000),
        joinSp ((pySplit c5Text).drop 1600)] :=
  ⟨c5Text_not_dominant, c5Text_words, by norm_num,
    c5_three_chunks c5Text 2501 c5Text_not_dominant c5Text_words
      (by norm_num)⟩

/-- Python substring test `needle in hay` (also used for `c in s` with a
single character). -/
def isSubstr (needle hay : List Char) : Bool :=
  hay.tails.any (fun t => needle.isPrefixOf t)

/-- The fixed interrogative/reference keyword list of
`similarity_search`. -/
def question_keywords : List (List Char) :=
  ["介绍".data, "什么".data, "啥".data, "内容".data, "文档".data, "说".data]

/-- The per-chunk score computed inside `similarity_search`, translated
clause by clause: +10 substring hit, +5·(matched-char ratio) guarded by
`match_count > 0`, +2 per query word of length > 2 found as a substring,
and +1 at most once (the loop breaks) when the query contains any fixed
keyword.  Both arguments are already lower-cased by the caller. -/
def score_doc (queryLower content : List Char) : ℚ :=
  let s1 : ℚ := if isSubstr queryLower content then 10 else 0
  let matchCount := (queryLower.filter (fun c => content.contains c)).length
  let s2 : ℚ :=
    if 0 < matchCount then (matchCount : ℚ) / (queryLower.length : ℚ) * 5
    else 0
  let s3 : ℚ := 2 * (((pySplit queryLower).filter
      (fun w => decide (2 < w.length) && isSubstr w content)).length : ℚ)
  let s4 : ℚ :=
    if question_keywords.any (fun k => isSubstr k queryLower) then 1 else 0
  s1 + s2 + s3 + s4

/-- Stable descending insertion: puts `a` before the first element whose
key is not larger, i.e. after all strictly-greater keys and before all
equal keys coming later in the input. -/
def insertDesc {α : Type} (key : α → ℚ) (a : α) : List α → List α
  | [] => [a]
  | b :: rest =>
    if key b ≤ key a then a :: b :: rest else b :: insertDesc key a rest

/-- Stable descending sort by `key` — the behaviour of Python's
`list.sort(key=..., reverse=True)` (Timsort is stable; any stable sort is
extensionally the same function). -/
def pySortDesc {α : Type} (key : α → ℚ) : List α → List α
  | [] => []
  | a :: rest => insertDesc key a (pySortDesc key rest)

/-- `VectorStore.similarity_search`: coerce `num_docs <= 0` to 5, return
`[]` on an empty collection, score every document against the lower-cased
query keeping only positive scores, sort stably by descending score, and
fall back to the first `num_docs` documents when nothing scored. -/
def similarity_search (query : List Char) (numDocs : ℤ)
    (docs : List Document) : List Document :=
  let n : ℤ := if numDocs ≤ 0 then 5 else numDocs
  if docs.length = 0 then []
  else
    let queryLower := query.map Char.toLower
    let scored := docs.filterMap (fun d =>
      let s := score_doc queryLower (d.page_content.map Char.toLower)
      if 0 < s then some (d, s) else none)
    let sorted := pySortDesc (fun p => p.2) scored
    if scored.length = 0 then docs.take n.toNat
    else (sorted.take n.toNat).map Prod.fst

/-- The scoring formula exactly as the claim states it: +10 for a full
substring hit, +5 times the fraction of query characters appearing in the
chunk, +2 for each query word of length > 2 appearing as a substring, and
+1 exactly once if the query contains any fixed keyword. -/
def specScore (query content : List Char) : ℚ :=
  (if isSubstr query content then 10 else 0)
  + 5 * (((query.filter (fun c => content.contains c)).length : ℚ) /
      (query.length : ℚ))
  + 2 * (((pySplit query).filter
      (fun w => decide (2 < w.length) && isSubstr w content)).length : ℚ)
  + (if question_keywords.any (fun k => isSubstr k query) then 1 else 0)

/-- The ranked set as the claim describes it: the positively scoring
documents, stably sorted by descending score. -/
def rankedSpec (query : List Char) (docs : List Document) : List Document :=
  pySortDesc
    (fun d => specScore (query.map Char.toLower)
      (d.page_content.map Char.toLower))
    (docs.filter (fun d => decide (0 < specScore (query.map Char.toLower)
      (d.page_content.map Char.toLower))))

theorem score_doc_eq_spec (q c : List Char) :
    score_doc q c = specScore q c := by
  simp only [score_doc, specScore]
  by_cases h : 0 < (q.filter (fun ch => c.contains ch)).length
  · rw [if_pos h]
    ring
  · rw [if_neg h]
    have h0 : (q.filter (fun ch => c.contains ch)).length = 0 := by omega
    rw [h0]
    norm_num

theorem length_insertDesc {α : Type} (key : α → ℚ) (a : α) (l : List α) :
    (insertDesc key a l).length = l.length + 1 := by
  induction l with
  | nil => rfl
  | cons b rest ih =>
    by_cases h : key b ≤ key a <;> simp [insertDesc, h, ih]

theorem length_pySortDesc {α : Type} (key : α → ℚ) (l : List α) :
    (pySortDesc key l).length = l.length := by
  induction l with
  | nil => rfl
  | cons a rest ih => simp [pySortDesc, length_insertDesc, ih]

theorem mem_insertDesc {α : Type} (key : α → ℚ) (a c : α) (l : List α) :
    c ∈ insertDesc key a l ↔ c = a ∨ c ∈ l := by
  induction l with
  | nil => simp [insertDesc]
  | cons b rest ih =>
    by_cases h : key b ≤ key a
    · simp [insertDesc, h]
    · simp [insertDesc, h, ih]
      tauto

theorem sorted_insertDesc {α : Type} (key : α → ℚ) (a : α) (l : List α)
    (h : List.Sorted (fun x y => key y ≤ key x) l) :
    List.Sorted (fun x y => key y ≤ key x) (insertDesc key a l) := by
  induction l with
  | nil => simp [insertDesc]
  | cons b rest ih =>
    rw [List.sorted_cons] at h
    obtain ⟨hb, hrest⟩ := h
    by_cases hba : key b ≤ key a
    · simp only [insertDesc, if_pos hba, List.sorted_cons]
      refine ⟨?_, ?_⟩
      · intro c hc
        rcases List.mem_cons.mp hc with rfl | hc
        · exact hba
        · exact le_trans (hb c hc) hba
      · exact ⟨hb, hrest⟩
    · simp only [insertDesc, if_neg hba, List.sorted_cons]
      refine ⟨?_, ih hrest⟩
      intro c hc
      rcases (mem_insertDesc key a c rest).mp hc with rfl | hc
      · exact le_of_lt (lt_of_not_le hba)
      · exact hb c hc

theorem sorted_pySortDesc {α : Type} (key : α → ℚ) (l : List α) :
    List.Sorted (fun x y => key y ≤ key x) (pySortDesc key l) := by
  induction l with
  | nil => simp [pySortDesc]
  | cons a rest ih => exact sorted_insertDesc key a _ ih

theorem filter_insertDesc {α : Type} (key : α → ℚ) (s : ℚ) (a : α)
    (l : List α) :
    (insertDesc key a l).filter (fun x => decide (key x = s)) =
      if key a = s then a :: l.filter (fun x => decide (key x = s))
      else l.filter (fun x => decide (key x = s)) := by
  induction l with
  | nil => by_cases h : key a = s <;> simp [insertDesc, List.filter, h]
  | cons b rest ih =>
    by_cases hba : key b ≤ key a
    · rw [insertDesc, if_pos hba]
      by_cases ha : key a = s <;> simp [List.filter_cons, ha]
    · have hab : key a < key b := lt_of_not_le hba
      rw [insertDesc, if_neg hba]
      by_cases hb : key b = s
      · have ha : ¬ key a = s := by
          intro h'
          rw [h', ← hb] at hab
          exact lt_irrefl _ hab
        simp [List.filter_cons, hb, ih, ha]
      · by_cases ha : key a = s <;> simp [List.filter_cons, hb, ih, ha]

/-- Stability of the descending sort: within each score class the sorted
order is the encounter order. -/
theorem filter_pySortDesc {α : Type} (key : α → ℚ) (s : ℚ) (l : List α) :
    (pySortDesc key l).filter (fun x => decide (key x = s)) =
      l.filter (fun x => decide (key x = s)) := by
  induction l with
  | nil => rfl
  | cons a rest ih =>
    rw [pySortDesc, filter_insertDesc]
    by_cases ha : key a = s <;> simp [List.filter_cons, ha, ih]

theorem pySortDesc_map {α β : Type} (key : β → ℚ) (f : α → β) (l : List α) :
    pySortDesc key (l.map f) = (pySortDesc (fun x => key (f x)) l).map f := by
  have hins : ∀ (a : α) (m : List α),
      insertDesc key (f a) (m.map f) =
        (insertDesc (fun x => key (f x)) a m).map f := by
    intro a m
    induction m with
    | nil => rfl
    | cons b rest ih =>
      by_cases h : key (f b) ≤ key (f a) <;>
        simp [insertDesc, h, ih]
  induction l with
  | nil => rfl
  | cons a rest ih =>
    rw [List.map_cons, pySortDesc, pySortDesc, ih, hins]

theorem filterMap_scored (g : Document → ℚ) (docs : List Document) :
    docs.filterMap (fun d => if 0 < g d then some (d, g d) else none) =
      (docs.filter (fun d => decide (0 < g d))).map (fun d => (d, g d)) := by
  induction docs with
  | nil => rfl
  | cons d rest ih =>
    by_cases h : 0 < g d <;>
      simp [List.filterMap_cons, List.filter_cons, h, ih]

theorem coercedLimit_pos (numDocs : ℤ) :
    1 ≤ (if numDocs ≤ 0 then (5 : ℤ) else numDocs).toNat := by
  by_cases h : numDocs ≤ 0 <;> simp [h] <;> try omega

/-- C2: `similarity_search` returns `[]` on an empty collection, never
returns `[]` on a non-empty collection, and when no stored chunk scores
above 0 it returns the first `num_docs` documents in storage order
(the fallback branch). -/
theorem c2_search_fallback (query : List Char) (numDocs : ℤ)
    (docs : List Document) :
    similarity_search query numDocs [] = [] ∧
    (docs ≠ [] → similarity_search query numDocs docs ≠ []) ∧
    ((∀ d ∈ docs, ¬ 0 < score_doc (query.map Char.toLower)
        (d.page_content.map Char.toLower)) →
      similarity_search query numDocs docs =
        docs.take (if numDocs ≤ 0 then (5 : ℤ) else numDocs).toNat) := by
  have hn := coercedLimit_pos numDocs
  refine ⟨by simp [similarity_search], ?_, ?_⟩
  · intro hne
    have hlen : docs.length ≠ 0 := by
      simpa [List.length_eq_zero] using hne
    simp only [similarity_search, if_neg hlen]
    by_cases hsc : (docs.filterMap (fun d =>
        if 0 < score_doc (query.map Char.toLower)
            (d.page_content.map Char.toLower) then
          some (d, score_doc (query.map Char.toLower)
            (d.page_content.map Char.toLower))
        else none)).length = 0
    · rw [if_pos hsc]
      have : (docs.take (if numDocs ≤ 0 then (5 : ℤ) else
          numDocs).toNat).length ≠ 0 := by
        rw [List.length_take]
        omega
      intro h
      rw [h] at this
      exact this rfl
    · rw [if_neg hsc]
      intro h
      have hlen2 := congrArg List.length h
      rw [List.length_map, List.length_take, length_pySortDesc] at hlen2
      simp only [List.length_nil] at hlen2
      rcases le_or_lt numDocs 0 with hnum | hnum
      · rw [if_pos hnum] at hlen2
        omega
      · rw [if_neg (by omega)] at hlen2
        omega
  · intro hall
    rcases List.eq_nil_or_concat docs with rfl | -
    · simp [similarity_search]
    by_cases hlen : docs.length = 0
    · simp only [similarity_search, if_pos hlen]
      rw [List.length_eq_zero] at hlen
      subst hlen
      simp
    · simp only [similarity_search, if_neg hlen]
      have hsc : docs.filterMap (fun d =>
          if 0 < score_doc (query.map Char.toLower)
              (d.page_content.map Char.toLower) then
            some (d, score_doc (query.map Char.toLower)
              (d.page_content.map Char.toLower))
          else none) = [] := by
        rw [List.filterMap_eq_nil_iff]
        intro d hd
        simp only [if_neg (hall d hd)]
      rw [hsc]
      simp

/-- C3: the per-chunk score computed by `similarity_search` equals the
claim's formula (+10 substring, +5·char fraction, +2 per long word, +1 at
most once for the keyword bonus); the ranked set keeps only positive
scores, is sorted descending, ties keep encounter order (stability); and
when nonempty the search returns its first `num_docs` entries.  The
embedding is a pure function of the collection and query, so repeated
searches are identical by definition. -/
theorem c3_scoring_and_ranking (query : List Char) (numDocs : ℤ)
    (docs : List Document) :
    (∀ content : List Char,
      score_doc (query.map Char.toLower) content =
        specScore (query.map Char.toLower) content) ∧
    List.Sorted (fun a b =>
        specScore (query.map Char.toLower) (b.page_content.map Char.toLower) ≤
          specScore (query.map Char.toLower) (a.page_content.map Char.toLower))
      (rankedSpec query docs) ∧
    (∀ s : ℚ, (rankedSpec query docs).filter
        (fun d => decide (specScore (query.map Char.toLower)
          (d.page_content.map Char.toLower) = s)) =
      (docs.filter (fun d => decide (0 < specScore (query.map Char.toLower)
          (d.page_content.map Char.toLower)))).filter
        (fun d => decide (specScore (query.map Char.toLower)
          (d.page_content.map Char.toLower) = s))) ∧
    (rankedSpec query docs ≠ [] →
      similarity_search query numDocs docs =
        (rankedSpec query docs).take
          (if numDocs ≤ 0 then (5 : ℤ) else numDocs).toNat) := by
  refine ⟨fun content => score_doc_eq_spec _ _, sorted_pySortDesc _ _,
    fun s => filter_pySortDesc _ _ _, ?_⟩
  intro hne
  have hdocs : docs ≠ [] := by
    intro h
    subst h
    exact hne rfl
  have hlen : docs.length ≠ 0 := by
    simpa [List.length_eq_zero] using hdocs
  simp only [similarity_search, if_neg hlen]
  rw [filterMap_scored (fun d => score_doc (query.map Char.toLower)
    (d.page_content.map Char.toLower)) docs]
  simp only [score_doc_eq_spec]
  have hflen : ¬ ((docs.filter (fun d =>
      decide (0 < specScore (query.map Char.toLower)
        (d.page_content.map Char.toLower)))).map (fun d =>
      (d, specScore (query.map Char.toLower)
        (d.page_content.map Char.toLower)))).length = 0 := by
    rw [List.length_map]
    intro h0
    apply hne
    have h1 : docs.filter (fun d =>
        decide (0 < specScore (query.map Char.toLower)
          (d.page_content.map Char.toLower))) = [] :=
      List.length_eq_zero.mp h0
    simp only [rankedSpec, h1, pySortDesc]
  rw [if_neg hflen, pySortDesc_map]
  rw [← List.map_take]
  rw [List.map_map]
  have hid : (Prod.fst ∘ fun d : Document =>
      (d, specScore (query.map Char.toLower)
        (d.page_content.map Char.toLower))) = fun d => d := rfl
  rw [hid, List.map_id']
  rfl

/-- C2 witness: query `"zzz"` scores 0 against the single chunk `"q"`, so
the fallback returns the collection's first documents; the empty
collection yields `[]`. -/
theorem c2_search_fallback_witness :
    ([(⟨"q".data, [], 0⟩ : Document)] ≠ []) ∧
    similarity_search "zzz".data 5 [] = [] ∧
    similarity_search "zzz".data 5 [⟨"q".data, [], 0⟩] ≠ [] ∧
    similarity_search "zzz".data 5 [⟨"q".data, [], 0⟩] =
      [(⟨"q".data, [], 0⟩ : Document)].take
        (if (5 : ℤ) ≤ 0 then (5 : ℤ) else 5).toNat := by
  have hmapq : ("zzz".data : List Char).map Char.toLower = ['z', 'z', 'z'] :=
    by decide
  have hmapc : ("q".data : List Char).map Char.toLower = ['q'] := by decide
  have hscore : score_doc (("zzz".data : List Char).map Char.toLower)
      (("q".data : List Char).map Char.toLower) = 0 := by
    rw [hmapq, hmapc]
    have h1 : isSubstr ['z', 'z', 'z'] ['q'] = false := by decide
    have h2 : ((['z', 'z', 'z'] : List Char).filter
        (fun c => (['q'] : List Char).contains c)).length = 0 := by decide
    have h3 : ((pySplit ['z', 'z', 'z']).filter
        (fun w => decide (2 < w.length) && isSubstr w ['q'])).length = 0 :=
      by decide
    have h4 : ¬ ∃ x ∈ question_keywords, isSubstr x ['z', 'z', 'z'] = true :=
      by decide
    simp [score_doc, h1, h2, h3, h4]
  have hall : ∀ d ∈ [(⟨"q".data, [], 0⟩ : Document)],
      ¬ 0 < score_doc ("zzz".data.map Char.toLower)
        (d.page_content.map Char.toLower) := by
    intro d hd
    rw [List.mem_singleton] at hd
    subst hd
    rw [hscore]
    norm_num
  refine ⟨by simp, (c2_search_fallback "zzz".data 5 []).1, ?_, ?_⟩
  · exact (c2_search_fallback "zzz".data 5 [⟨"q".data, [], 0⟩]).2.1
      (by simp)
  · exact (c2_search_fallback "zzz".data 5 [⟨"q".data, [], 0⟩]).2.2 hall

/-- C3 witness: query `"ab"` scores 15 against the single chunk `"ab"`
(substring +10, full char ratio +5), so the ranked set is nonempty and the
search returns its prefix. -/
theorem c3_scoring_and_ranking_witness :
    rankedSpec "ab".data [⟨"ab".data, [], 0⟩] ≠ [] ∧
    similarity_search "ab".data 5 [⟨"ab".data, [], 0⟩] =
      (rankedSpec "ab".data [⟨"ab".data, [], 0⟩]).take
        (if (5 : ℤ) ≤ 0 then (5 : ℤ) else 5).toNat := by
  have hmap : ("ab".data : List Char).map Char.toLower = ['a', 'b'] :=
    by decide
  have hs : specScore ['a', 'b'] ['a', 'b'] = 15 := by
    have h1 : isSubstr (['a', 'b'] : List Char) ['a', 'b'] = true := by decide
    have h2 : ((['a', 'b'] : List Char).filter
        (fun c => (['a', 'b'] : List Char).contains c)).length = 2 := by
      decide
    have h3 : (['a', 'b'] : List Char).length = 2 := by decide
    have h4 : ((pySplit ['a', 'b']).filter
        (fun w => decide (2 < w.length) && isSubstr w ['a', 'b'])).length = 0 :=
      by decide
    have h5 : question_keywords.any (fun k => isSubstr k ['a', 'b']) = false :=
      by decide
    rw [specScore, h1, h2, h3, h4, h5]
    norm_num
  have hrank : rankedSpec "ab".data [⟨"ab".data, [], 0⟩] =
      [(⟨"ab".data, [], 0⟩ : Document)] := by
    simp only [rankedSpec, hmap, List.filter_cons, List.filter_nil]
    rw [hs]
    norm_num
    simp [pySortDesc, insertDesc]
  have hne : rankedSpec "ab".data [⟨"ab".data, [], 0⟩] ≠ [] := by
    rw [hrank]
    simp
  exact ⟨hne,
    (c3_scoring_and_ranking "ab".data 5 [⟨"ab".data, [], 0⟩]).2.2.2 hne⟩

/-- The two Python exception classes `_call_deepinsight` can raise:
`FileNotFoundError` (missing executable, or missing report file) and
`RuntimeError` (non-zero exit, timeout). -/
inductive PyExc
  | fileNotFound (msg : List Char)
  | runtimeError (msg : List Char)
deriving DecidableEq

/-- Whether two exceptions are instances of the same Python exception
class — the only "kind" a caller's `except` clauses can dispatch on. -/
def sameExcClass : PyExc → PyExc → Bool
  | .fileNotFound _, .fileNotFound _ => true
  | .runtimeError _, .runtimeError _ => true
  | _, _ => false

/-- Behaviour of one invocation of the external `./DeepInsight` process:
the executable may be missing (`create_subprocess_exec` raises
`FileNotFoundError`), the 600-second `wait_for` may expire (with the tool
possibly having half-written the output file), or the process exits with
a return code and captured stderr; `report` is the content of the
temporary output file if the tool wrote it. -/
inductive ProcOutcome
  | execMissing (msg : List Char)
  | timeout (halfWritten : Option (List Char))
  | exited (returncode : ℤ) (stderr : List Char) (report : Option (List Char))

def deepinsightTimeoutMsg : List Char :=
  "DeepInsight command timeout after 10 minutes".data

def deepinsightFailMsg (stderr : List Char) : List Char :=
  "DeepInsight command failed: ".data ++ stderr

def reportReadErrMsg : List Char :=
  "No such file or directory: deepinsight report".data

/-- `Agent._call_deepinsight`: run the tool, raise `RuntimeError` with the
captured stderr on a non-zero exit, `RuntimeError` with a fixed message on
timeout, re-raise `FileNotFoundError` when the executable (or the report
file being read back) is missing, and return the report text on success.
The second component is whether the timestamp-named temporary output file
still exists afterwards: the `finally` block
(`if tmp_file.exists(): tmp_file.unlink()`) is applied to every path. -/
def call_deepinsight (outcome : ProcOutcome) :
    Except PyExc (List Char) × Bool :=
  let body : Except PyExc (List Char) × Bool :=
    match outcome with
    | .execMissing msg => (.error (.fileNotFound msg), false)
    | .timeout w => (.error (.runtimeError deepinsightTimeoutMsg), w.isSome)
    | .exited code stderr report =>
      if code ≠ 0 then
        (.error (.runtimeError (deepinsightFailMsg stderr)), report.isSome)
      else
        match report with
        | some content => (.ok content, true)
        | none => (.error (.fileNotFound reportReadErrMsg), false)
  (body.1, if body.2 then false else body.2)

/-- C9: after every invocation of the external tool — success, non-zero
exit, timeout, or failure to read the report file — the temporary output
file no longer exists: the `finally` cleanup runs unconditionally on every
exit path of `_call_deepinsight`. -/
theorem c9_tmpfile_always_removed (outcome : ProcOutcome) :
    (call_deepinsight outcome).2 = false := by
  rcases outcome with msg | w | ⟨code, stderr, report⟩
  · rfl
  · cases w <;> rfl
  · by_cases hc : code = 0
    · subst hc
      cases report <;> rfl
    · simp only [call_deepinsight, if_pos hc]
      cases report <;> rfl

/-- C8 (counterexample): timeout and non-zero exit both surface as the
same Python exception class, `RuntimeError` — they are not distinct error
kinds; only the message text differs. -/
theorem c8_counterexample :
    (call_deepinsight (.timeout none)).1 =
      .error (.runtimeError deepinsightTimeoutMsg) ∧
    (call_deepinsight (.exited 1 "boom".data none)).1 =
      .error (.runtimeError (deepinsightFailMsg "boom".data)) ∧
    sameExcClass (.runtimeError deepinsightTimeoutMsg)
      (.runtimeError (deepinsightFailMsg "boom".data)) = true := by
  refine ⟨rfl, ?_, rfl⟩
  simp only [call_deepinsight, if_pos (by decide : (1 : ℤ) ≠ 0)]

/-- C8 (amended): a missing executable surfaces as `FileNotFoundError`, a
kind distinct from `RuntimeError`, so callers can apply the
tool-unavailable fallback; a non-zero exit surfaces as a `RuntimeError`
whose message carries the captured stderr; a timeout surfaces as a
`RuntimeError` with a fixed timeout message.  Timeout and non-zero exit
share the same exception kind and are distinguishable only by message
text (the two messages always differ). -/
theorem c8_amended (codeV : ℤ) (stderr : List Char)
    (report halfWritten : Option (List Char)) (msg : List Char)
    (hc : codeV ≠ 0) :
    (call_deepinsight (.execMissing msg)).1 = .error (.fileNotFound msg) ∧
    (call_deepinsight (.timeout halfWritten)).1 =
      .error (.runtimeError deepinsightTimeoutMsg) ∧
    (call_deepinsight (.exited codeV stderr report)).1 =
      .error (.runtimeError (deepinsightFailMsg stderr)) ∧
    sameExcClass (.fileNotFound msg) (.runtimeError deepinsightTimeoutMsg) =
      false ∧
    sameExcClass (.runtimeError deepinsightTimeoutMsg)
      (.runtimeError (deepinsightFailMsg stderr)) = true ∧
    deepinsightTimeoutMsg ≠ deepinsightFailMsg stderr := by
  refine ⟨rfl, rfl, ?_, rfl, rfl, ?_⟩
  · simp only [call_deepinsight, if_pos hc]
  · intro h
    have h20 := congrArg (fun l => l[20]?) h
    simp only [deepinsightFailMsg] at h20
    rw [List.getElem?_append_left (by decide)] at h20
    exact absurd h20 (by decide)

/-- C8 witness: `c8_amended` at exit code 1 with stderr `"err"`. -/
theorem c8_amended_witness :
    ((1 : ℤ) ≠ 0) ∧
    ((call_deepinsight (.execMissing "m".data)).1 =
       .error (.fileNotFound "m".data) ∧
     (call_deepinsight (.timeout none)).1 =
       .error (.runtimeError deepinsightTimeoutMsg) ∧
     (call_deepinsight (.exited 1 "err".data none)).1 =
       .error (.runtimeError (deepinsightFailMsg "err".data)) ∧
     sameExcClass (.fileNotFound "m".data)
       (.runtimeError deepinsightTimeoutMsg) = false ∧
     sameExcClass (.runtimeError deepinsightTimeoutMsg)
       (.runtimeError (deepinsightFailMsg "err".data)) = true ∧
     deepinsightTimeoutMsg ≠ deepinsightFailMsg "err".data) :=
  ⟨by decide, c8_amended 1 "err".data none none "m".data (by decide)⟩

/-- A persisted source as the orchestrator consumes it (`types.py`
`Source`, the fields `generate_transformation` reads; `content` is
optional in the record and coerced with `or ""`). -/
structure SourceRec where
  id : List Char
  name : List Char
  type : List Char
  content : Option (List Char)

structure SourceSummary where
  id : List Char
  name : List Char
  type : List Char
deriving DecidableEq

structure TransformationResponse where
  type : List Char
  content : List Char
  sources : List SourceSummary
  metaLength : List Char
  metaFormat : List Char
deriving DecidableEq

def natToChars (n : ℕ) : List Char := (toString n).data

/-- The source-context block `generate_transformation` builds: per-source
header `\n## Source {i}: {name}\n`, the content verbatim when its length
is within `max_context_length`, else the first `max_context_length`
characters plus a truncation marker, then a newline. -/
def buildSourceContext (maxLen : ℤ) (sources : List SourceRec) : List Char :=
  (sources.enum.map (fun p =>
    ("\n## Source ".data ++ natToChars (p.1 + 1) ++ ": ".data
      ++ p.2.name ++ "\n".data)
    ++ (let content := p.2.content.getD []
        if (content.length : ℤ) ≤ maxLen then content
        else content.take maxLen.toNat
          ++ ("\n... [Content truncated, total length: ".data
            ++ natToChars content.length ++ "]".data))
    ++ "\n".data)).flatten

/-- The fixed five-section analytical prompt `generate_transformation`
uses when the DeepInsight CLI is not found (transcribed from
`agent.py`). -/
def insightDetailedPrompt (summary : List Char) : List Char :=
  "基于以下摘要，生成一份深度洞察报告。\n\n摘要内容：\n".data ++ summary ++
  "\n\n请生成一份包含以下内容的深度洞察报告：\n1. 核心发现和关键洞察\n2. 数据趋势和模式分析\n3. 潜在问题和风险\n4. 机会识别和建议\n5. 战略性思考和建议\n\n报告应该具有深度和前瞻性，提供独特的视角和见解。使用中文输出。".data

/-- The simpler fallback prompt used on any other DeepInsight failure. -/
def insightSimplePrompt (summary : List Char) : List Char :=
  "基于以下内容生成深度洞察报告：\n\n".data ++ summary

/-- `Agent.generate_transformation` with the external collaborators as
oracles: `llm` is `_generate_text` (the primary chat-completion provider:
the generated text, or the exception the call raised), `gemini` the
optional multimodal client, `tool` the DeepInsight process behaviour on a
given input, and `template` the prompt template that
`get_transformation_prompt` selects for this request type, already
closed over the request's type/length/format/instruction (the template
module is not part of the core; only the source context varies here).
For `type == "ppt"` the Gemini client is preferred when configured; for
`type == "insight"` a summary is generated first, the tool is attempted
on it, a `FileNotFoundError` falls back to the primary provider with the
fixed five-section prompt, and any other tool error falls back with the
simpler prompt; all other types call the primary provider directly. -/
def generate_transformation
    (llm : List Char → Except PyExc (List Char))
    (gemini : Option (List Char → Except PyExc (List Char)))
    (tool : List Char → ProcOutcome)
    (template : List Char → List Char)
    (maxLen : ℤ) (reqType reqLength reqFormat : List Char)
    (sources : List SourceRec) : Except PyExc TransformationResponse :=
  let sourceContext := buildSourceContext maxLen sources
  let prompt := template sourceContext
  let gen : Except PyExc (List Char) :=
    if reqType = "ppt".data then
      match gemini with
      | some g => g prompt
      | none => llm prompt
    else if reqType = "insight".data then
      match llm prompt with
      | .error e => .error e
      | .ok summary =>
        match (call_deepinsight (tool summary)).1 with
        | .ok report => .ok report
        | .error (.fileNotFound _) => llm (insightDetailedPrompt summary)
        | .error (.runtimeError _) => llm (insightSimplePrompt summary)
  else llm prompt
  gen.map fun response =>
    { type := reqType, content := response,
      sources := sources.map (fun s => ⟨s.id, s.name, s.type⟩),
      metaLength := reqLength, metaFormat := reqFormat }

/-- C7: for an insight transformation, when the tool executable is absent
the report is regenerated via the primary provider with the fixed
five-section prompt; on any other tool failure, with the simpler prompt;
in both cases `generate_transformation` returns a result with non-empty
content and raises nothing, provided the primary provider calls succeed
(returning non-empty text). -/
theorem c7_insight_fallback
    (llm : List Char → Except PyExc (List Char))
    (gemini : Option (List Char → Except PyExc (List Char)))
    (tool : List Char → ProcOutcome)
    (template : List Char → List Char)
    (maxLen : ℤ) (reqLength reqFormat : List Char)
    (sources : List SourceRec)
    (hllm : ∀ p, ∃ s, llm p = .ok s ∧ s ≠ []) :
    ((∀ s, ∃ m, tool s = .execMissing m) →
      ∃ summary r,
        llm (template (buildSourceContext maxLen sources)) = .ok summary ∧
        llm (insightDetailedPrompt summary) = .ok r ∧ r ≠ [] ∧
        generate_transformation llm gemini tool template maxLen
            "insight".data reqLength reqFormat sources =
          .ok ⟨"insight".data, r,
            sources.map (fun s => ⟨s.id, s.name, s.type⟩),
            reqLength, reqFormat⟩) ∧
    ((∀ s, ∃ m, (call_deepinsight (tool s)).1 =
        .error (.runtimeError m)) →
      ∃ summary r,
        llm (template (buildSourceContext maxLen sources)) = .ok summary ∧
        llm (insightSimplePrompt summary) = .ok r ∧ r ≠ [] ∧
        generate_transformation llm gemini tool template maxLen
            "insight".data reqLength reqFormat sources =
          .ok ⟨"insight".data, r,
            sources.map (fun s => ⟨s.id, s.name, s.type⟩),
            reqLength, reqFormat⟩) := by
  have hne : ("insight".data = "ppt".data) = False := by
    simp only [eq_iff_iff, iff_false]
    decide
  obtain ⟨summary, hsum, -⟩ :=
    hllm (template (buildSourceContext maxLen sources))
  constructor
  · intro htool
    obtain ⟨m, hm⟩ := htool summary
    obtain ⟨r, hr, hrne⟩ := hllm (insightDetailedPrompt summary)
    refine ⟨summary, r, hsum, hr, hrne, ?_⟩
    simp only [generate_transformation, hne, if_false, if_pos rfl, hsum,
      hm, call_deepinsight, hr]
    rfl
  · intro htool
    obtain ⟨m, hm⟩ := htool summary
    obtain ⟨r, hr, hrne⟩ := hllm (insightSimplePrompt summary)
    refine ⟨summary, r, hsum, hr, hrne, ?_⟩
    simp only [generate_transformation, hne, if_false, if_pos rfl, hsum,
      hm, hr]
    rfl

def c7Llm : List Char → Except PyExc (List Char) := fun q => .ok ('x' :: q)

def c7Tool : List Char → ProcOutcome := fun _ => .execMissing []

/-- C7 witness: `c7_insight_fallback` with a provider that always returns
non-empty text and a tool whose executable is always missing. -/
theorem c7_insight_fallback_witness :
    (∀ p, ∃ s, c7Llm p = .ok s ∧ s ≠ []) ∧
    (((∀ s, ∃ m, c7Tool s = .execMissing m) →
      ∃ summary r,
        c7Llm ((fun s => s) (buildSourceContext 100 [])) = .ok summary ∧
        c7Llm (insightDetailedPrompt summary) = .ok r ∧ r ≠ [] ∧
        generate_transformation c7Llm none c7Tool (fun s => s) 100
            "insight".data "medium".data "markdown".data [] =
          .ok ⟨"insight".data, r, [],
            "medium".data, "markdown".data⟩) ∧
    ((∀ s, ∃ m, (call_deepinsight (c7Tool s)).1 =
        .error (.runtimeError m)) →
      ∃ summary r,
        c7Llm ((fun s => s) (buildSourceContext 100 [])) = .ok summary ∧
        c7Llm (insightSimplePrompt summary) = .ok r ∧ r ≠ [] ∧
        generate_transformation c7Llm none c7Tool (fun s => s) 100
            "insight".data "medium".data "markdown".data [] =
          .ok ⟨"insight".data, r, [],
            "medium".data, "markdown".data⟩)) :=
  ⟨fun p => ⟨'x' :: p, rfl, by simp⟩,
    c7_insight_fallback c7Llm none c7Tool (fun s => s) 100
      "medium".data "markdown".data []
      (fun p => ⟨'x' :: p, rfl, by simp⟩)⟩

def countWhile (p : Char → Bool) (l : List Char) : ℕ := (l.takeWhile p).length

/-- The tail `\s*\d+[:\s]*.*$` of the slide-heading pattern, matched at
`rest` (a MULTILINE `$`: `.*` stops before a newline, where `$` always
holds).  Returns the consumed length.  Each greedy run is followed by a
disjoint character class, and `.*$` always succeeds, so the greedy
assignment is the regex engine's unique outcome for this tail. -/
def matchAfterAlt (rest : List Char) : Option ℕ :=
  let w := countWhile pyIsSpace rest
  let r1 := rest.drop w
  let d := countWhile Char.isDigit r1
  if d = 0 then none
  else
    let r2 := r1.drop d
    let cs := countWhile (fun c => c = ':' || pyIsSpace c) r2
    let r3 := r2.drop cs
    let dots := countWhile (fun c => !(c = '\n')) r3
    some (w + d + cs + dots)

/-- The alternative `第\d+张幻灯片` followed by the tail. -/
def matchDiNth (rest : List Char) : Option ℕ :=
  if ("第".data).isPrefixOf rest then
    let r1 := rest.drop 1
    let d := countWhile Char.isDigit r1
    if d = 0 then none
    else if ("张幻灯片".data).isPrefixOf (r1.drop d) then
      (matchAfterAlt (r1.drop (d + 4))).map (· + (1 + d + 4))
    else none
  else none

/-- The alternation `(?:Slide|幻灯片|第\d+张幻灯片|##)` followed by the
tail, alternatives tried in pattern order; a branch whose tail fails
yields to the next branch, as the engine backtracks. -/
def matchAlt (rest : List Char) : Option ℕ :=
  (if ("Slide".data).isPrefixOf rest then
    (matchAfterAlt (rest.drop 5)).map (· + 5)
  else none)
  <|> (if ("幻灯片".data).isPrefixOf rest then
    (matchAfterAlt (rest.drop 3)).map (· + 3)
  else none)
  <|> matchDiNth rest
  <|> (if ("##".data).isPrefixOf rest then
    (matchAfterAlt (rest.drop 2)).map (· + 2)
  else none)

/-- One attempt of the slide-heading pattern
`^(?:\s*#{1,6}\s*)?(?:Slide|幻灯片|第\d+张幻灯片|##)\s*\d+[:\s]*.*$` at a
line-start position.  The optional group is tried first with the hash
count `#{1,6}` from greedy down to 1, then skipped — the engine's
backtracking order; the two `\s*` runs inside the group are forced since
whitespace and `#` are disjoint classes. -/
def matchSlideHeading (s : List Char) : Option ℕ :=
  let w1 := countWhile pyIsSpace s
  let afterW1 := s.drop w1
  let k := min 6 (countWhile (fun c => c = '#') afterW1)
  let tryWith : ℕ → Option ℕ := fun h =>
    let afterH := afterW1.drop h
    let w2 := countWhile pyIsSpace afterH
    (matchAlt (afterH.drop w2)).map (fun m => w1 + h + w2 + m)
  ((List.range' 1 k).reverse.map tryWith).findSome? id
  <|> matchAlt s

/-- `re.finditer` for the MULTILINE slide pattern: scan left to right,
only line starts can match `^`, and scanning resumes at a match's end
(matches never overlap; every match consumes at least the mandatory
digit, so the position strictly advances and `len + 2` fuel suffices). -/
def lineStart (s : List Char) (p : ℕ) : Bool :=
  p == 0 || s[p-1]? == some '\n'

def findMatchesAux (s : List Char) : ℕ → ℕ → List (ℕ × ℕ)
  | 0, _ => []
  | fuel + 1, p =>
    if s.length < p then []
    else if lineStart s p then
      match matchSlideHeading (s.drop p) with
      | some m => (p, p + m) :: findMatchesAux s fuel (p + m)
      | none => findMatchesAux s fuel (p + 1)
    else findMatchesAux s fuel (p + 1)

def findMatches (s : List Char) : List (ℕ × ℕ) :=
  findMatchesAux s (s.length + 2) 0

/-- Python `str.find`: index of the first occurrence, `-1` if absent. -/
def pyFind (needle hay : List Char) : ℤ :=
  match (List.range (hay.length + 1)).findSome?
      (fun p => if needle.isPrefixOf (hay.drop p) then some p else none) with
  | some p => (p : ℤ)
  | none => -1

/-- Python `str.split(sep)` for a nonempty separator, fuel-bounded (every
split consumes at least the separator, so `len + 1` fuel suffices). -/
def splitSepAux (sep : List Char) : ℕ → List Char → List (List Char)
  | 0, s => [s]
  | fuel + 1, s =>
    match (List.range (s.length + 1)).findSome?
        (fun p => if sep.isPrefixOf (s.drop p) then some p else none) with
    | some p => s.take p :: splitSepAux sep fuel (s.drop (p + sep.length))
    | none => [s]

def splitSep (sep s : List Char) : List (List Char) :=
  splitSepAux sep (s.length + 1) s

structure Slide where
  style : List Char
  content : List Char
deriving DecidableEq

def styleOpenMarker : List Char := "<STYLE_INSTRUCTIONS>".data

def styleCloseMarker : List Char := "</STYLE_INSTRUCTIONS>".data

/-- Style extraction of `parse_ppt_slides`: the text between the style
markers when the open marker exists and the close marker lies strictly
after it (`style_start != -1 and style_end > style_start`), else empty.
The open marker is 20 characters long. -/
def extractStyle (content : List Char) : List Char :=
  let styleStart := pyFind styleOpenMarker content
  let styleEnd := pyFind styleCloseMarker content
  if styleStart ≠ -1 ∧ styleStart < styleEnd then
    pySlice content (styleStart + 20) styleEnd
  else []

def requiredFieldKeywords : List (List Char) :=
  ["叙事目标".data, "narrative goal".data, "关键内容".data]

/-- The heading-derived candidates: each match's span runs from its start
to the next match's start (or the end of content); a candidate is kept
only when its lower-cased text contains a required-field keyword. -/
def acceptedSlides (content : List Char) : List Slide :=
  let ms := (findMatches content).map Prod.fst
  let spans := ms.zip (ms.tail ++ [content.length])
  let texts := spans.map (fun p => (content.drop p.1).take (p.2 - p.1))
  (texts.filter (fun sc => requiredFieldKeywords.any
    (fun k => isSubstr k (sc.map Char.toLower)))).map
    (fun sc => ⟨extractStyle content, sc⟩)

def narrativeMarkerZh : List Char := "// 叙事目标".data

def narrativeMarkerEn : List Char := "// NARRATIVE GOAL".data

/-- The marker-split fallback: prefer the Chinese inline marker, else the
English one; when the chosen marker occurs, every split part after the
first becomes a slide with the marker re-prepended, with no further
validation. -/
def markerSlides (content : List Char) : List Slide :=
  let marker := if isSubstr narrativeMarkerZh content then narrativeMarkerZh
    else narrativeMarkerEn
  if isSubstr marker content then
    ((splitSep marker content).drop 1).map
      (fun part => ⟨extractStyle content, marker ++ part⟩)
  else []

/-- `Agent.parse_ppt_slides`: heading-matched candidates containing a
required keyword first; if none were accepted, split on the inline
narrative-goal marker; if still none, the entire content becomes a single
slide. -/
def parse_ppt_slides (content : List Char) : List Slide :=
  let slides := acceptedSlides content
  if slides ≠ [] then slides
  else
    let viaMarker := markerSlides content
    if viaMarker ≠ [] then viaMarker
    else [⟨extractStyle content, content⟩]

theorem parse_ppt_slides_ne_nil (content : List Char) :
    parse_ppt_slides content ≠ [] := by
  simp only [parse_ppt_slides]
  by_cases h1 : acceptedSlides content ≠ []
  · simp [h1]
  · simp only [h1, if_false, ite_not]
    by_cases h2 : markerSlides content = [] <;> simp [h2]

/-- C6: `parse_ppt_slides` always returns a non-empty ordered sequence:
accepted heading candidates (containing a required-field keyword) are
taken first; if none, the marker-split slides; if still none, the whole
content as a single slide — and an input matching neither the heading
pattern nor an inline marker yields exactly one slide whose content is
the whole input. -/
theorem c6_parse_cascade (content : List Char) :
    parse_ppt_slides content ≠ [] ∧
    (acceptedSlides content ≠ [] →
      parse_ppt_slides content = acceptedSlides content) ∧
    (acceptedSlides content = [] → markerSlides content ≠ [] →
      parse_ppt_slides content = markerSlides content) ∧
    (findMatches content = [] → ¬ isSubstr narrativeMarkerZh content →
      ¬ isSubstr narrativeMarkerEn content →
      parse_ppt_slides content = [⟨extractStyle content, content⟩]) := by
  refine ⟨parse_ppt_slides_ne_nil content, ?_, ?_, ?_⟩
  · intro h
    simp [parse_ppt_slides, h]
  · intro h1 h2
    simp [parse_ppt_slides, h1, h2]
  · intro hm hzh hen
    have hacc : acceptedSlides content = [] := by
      simp [acceptedSlides, hm]
    have hmk : markerSlides content = [] := by
      simp only [markerSlides, if_neg hzh]
      rw [if_neg hen]
    simp [parse_ppt_slides, hacc, hmk]

/-- C6 witness: `"hello"` matches neither the heading pattern nor a
marker, so the parse is the single whole-content slide. -/
theorem c6_parse_cascade_witness :
    parse_ppt_slides "hello".data ≠ [] ∧
    findMatches "hello".data = [] ∧
    parse_ppt_slides "hello".data =
      [⟨extractStyle "hello".data, "hello".data⟩] :=
  ⟨(c6_parse_cascade "hello".data).1, by decide,
    (c6_parse_cascade "hello".data).2.2.2 (by decide) (by decide)
      (by decide)⟩

def pptLimitMsg : List Char := "PPT页数超过20页上限，已停止生成图片".data

structure NoteMeta where
  length : List Char
  format : List Char
  image_error : Option (List Char)
  slides : Option (List (List Char))
deriving DecidableEq

structure Note where
  title : List Char
  content : List Char
  type : List Char
  metadata : NoteMeta
deriving DecidableEq

/-- `Path(image_path).name`: the component after the last slash. -/
def baseName (p : List Char) : List Char := (splitSep ['/'] p).getLastD []

/-- The per-slide image prompt the `transform` endpoint builds: every
slide's prompt uses the FIRST slide's style. -/
def mkSlidePrompt (style slContent : List Char) : List Char :=
  "Style: ".data ++ style ++ "\n\nSlide Content: ".data ++ slContent
    ++ "\n\n**注意：无论来源是什么语言，请务必使用中文**\n".data

/-- The ppt branch of the `transform` endpoint (`server.py`) after a
successful generation, with the image generator as an oracle: when the
Gemini client is configured, parse the slides; if more than 10, skip all
image generation and record `image_error` (whose text states a 20-page
ceiling); otherwise submit one image prompt per slide sequentially,
skipping failures (`PartialBatchFailure` is non-fatal) and collecting the
upload URLs.  The note is created and returned in every case.  The second
component is the list of image prompts actually submitted. -/
def transform_ppt (reqLength reqFormat content : List Char)
    (geminiConfigured : Bool)
    (genImage : List Char → Except (List Char) (List Char)) :
    Note × List (List Char) :=
  if geminiConfigured then
    let slides := parse_ppt_slides content
    if 10 < slides.length then
      (⟨"幻灯片".data, content, "ppt".data,
        ⟨reqLength, reqFormat, some pptLimitMsg, none⟩⟩, [])
    else
      let style := (slides.headD ⟨[], []⟩).style
      let prompts := slides.map (fun sl => mkSlidePrompt style sl.content)
      let urls := prompts.filterMap (fun pr =>
        match genImage pr with
        | .ok path => some ("/uploads/".data ++ baseName path)
        | .error _ => none)
      (⟨"幻灯片".data, content, "ppt".data,
        ⟨reqLength, reqFormat, none, some urls⟩⟩, prompts)
  else
    (⟨"幻灯片".data, content, "ppt".data,
      ⟨reqLength, reqFormat, none, none⟩⟩, [])

/-- C10: with the Gemini client configured, the ppt transform attempts
per-slide image generation iff the number of parsed slides is at most 10;
when the count exceeds 10, no image prompt is submitted, the note's
metadata records `image_error` with the message stating a 20-page
maximum, and the transform still returns the created note (content and
type intact) instead of failing. -/
theorem c10_ppt_slide_cap (reqLength reqFormat content : List Char)
    (genImage : List Char → Except (List Char) (List Char)) :
    ((transform_ppt reqLength reqFormat content true genImage).2 ≠ [] ↔
      (parse_ppt_slides content).length ≤ 10) ∧
    (10 < (parse_ppt_slides content).length →
      (transform_ppt reqLength reqFormat content true genImage).2 = [] ∧
      (transform_ppt reqLength reqFormat content true
          genImage).1.metadata.image_error = some pptLimitMsg ∧
      (transform_ppt reqLength reqFormat content true genImage).1.content =
        content ∧
      (transform_ppt reqLength reqFormat content true genImage).1.type =
        "ppt".data) ∧
    ((parse_ppt_slides content).length ≤ 10 →
      (transform_ppt reqLength reqFormat content true genImage).2.length =
        (parse_ppt_slides content).length ∧
      (transform_ppt reqLength reqFormat content true
          genImage).1.metadata.image_error = none) ∧
    isSubstr "20".data pptLimitMsg = true := by
  refine ⟨?_, ?_, ?_, by decide⟩
  · by_cases h : 10 < (parse_ppt_slides content).length
    · simp [transform_ppt, h]
    · simp only [transform_ppt, if_true, if_neg h]
      constructor
      · intro _
        omega
      · intro _ hcon
        have := congrArg List.length hcon
        rw [List.length_map, List.length_nil] at this
        exact parse_ppt_slides_ne_nil content (List.length_eq_zero.mp this)
  · intro h
    simp [transform_ppt, h]
  · intro h
    simp [transform_ppt, Nat.not_lt.mpr h]

/-- A content whose parse yields 11 accepted heading slides. -/
def c10Content : List Char :=
  (List.replicate 11 "Slide 1: 叙事目标\n".data).flatten

set_option maxRecDepth 100000 in
/-- C10 witness: `c10_ppt_slide_cap` at the 11-slide content — image
generation is skipped and the cap message is recorded. -/
theorem c10_ppt_slide_cap_witness :
    10 < (parse_ppt_slides c10Content).length ∧
    (transform_ppt "medium".data "markdown".data c10Content true
      (fun _ => .error "e".data)).2 = [] ∧
    (transform_ppt "medium".data "markdown".data c10Content true
      (fun _ => .error "e".data)).1.metadata.image_error =
        some pptLimitMsg ∧
    (transform_ppt "medium".data "markdown".data c10Content true
      (fun _ => .error "e".data)).1.content = c10Content ∧
    (transform_ppt "medium".data "markdown".data c10Content true
      (fun _ => .error "e".data)).1.type = "ppt".data :=
  ⟨by decide,
    (c10_ppt_slide_cap "medium".data "markdown".data c10Content
      (fun _ => .error "e".data)).2.1 (by decide)⟩
